import Mathlib

/-!
Shallow embedding of the YOLO annotation tool (src/annotaor.py) for checking
its natural-language specification.

Modelling conventions:
* Python floats are modelled as rationals (`ℚ`); every float operation the
  program performs on annotation data (division, averaging, absolute value)
  is exact on the inputs in scope.
* Python `int(q)` on a float truncates toward zero; this is `pytrunc`.
* Python strings are modelled as `List Char`; files are their full text.
* `int(s)` / `float(s)` string parsing is modelled for finite decimal
  literals (optional sign, digits, fraction, exponent).  The model omits
  underscores inside numeric literals and the `inf`/`nan` spellings, which
  the annotation format never uses.
* The GUI is out of scope; its state that the engine reads (current image
  list, current index, output folder configured or not, the in-memory
  annotation list, the on-disk label files) is the `AppState` record.
-/

/-- Python `int()` applied to a float/rational: truncation toward zero. -/
def pytrunc (q : ℚ) : ℤ := if 0 ≤ q then ⌊q⌋ else ⌈q⌉

/-- One annotation line in memory: the tuple
`(cls_id, x_center, y_center, width, height)` the source appends to
`self.annotations`.  The class id comes from Python `int()` and may be
negative or out of registry range; the floats are unvalidated. -/
structure Box where
  class_index : ℤ
  x_center : ℚ
  y_center : ℚ
  width : ℚ
  height : ℚ
  deriving DecidableEq, Repr

/-- The whitespace characters of Python `str.strip()` / `str.split()`. -/
def isPyWS (c : Char) : Bool :=
  c = ' ' || c = '\t' || c = '\n' || c = '\r' || c = '\x0b' || c = '\x0c'

/-- Python `str.strip()`: drop leading and trailing whitespace. -/
def pyStrip (l : List Char) : List Char :=
  ((l.dropWhile isPyWS).reverse.dropWhile isPyWS).reverse

/-- Split a character list at every occurrence of `sep` (the separators are
not kept).  `splitOnChar sep l` always has one more element than the number
of separators in `l`; in particular a trailing separator yields a final `[]`.
Used to model iterating over the lines of a file. -/
def splitOnChar (sep : Char) : List Char → List (List Char)
  | [] => [[]]
  | c :: rest =>
    if c = sep then [] :: splitOnChar sep rest
    else
      match splitOnChar sep rest with
      | [] => [[c]]
      | t :: ts => (c :: t) :: ts

/-- Worker for `pySplitWS`; `cur` holds the current token reversed. -/
def splitWSGo : List Char → List Char → List (List Char)
  | [], cur => if cur.isEmpty then [] else [cur.reverse]
  | c :: rest, cur =>
    if isPyWS c then
      if cur.isEmpty then splitWSGo rest [] else cur.reverse :: splitWSGo rest []
    else splitWSGo rest (c :: cur)

/-- Python `str.split()` with no argument: split on runs of whitespace,
producing no empty tokens. -/
def pySplitWS (l : List Char) : List (List Char) := splitWSGo l []

/-- Value of a (nonempty, all-digit) digit string, most significant first. -/
def digitsToNat (l : List Char) : ℕ :=
  l.foldl (fun acc c => acc * 10 + (c.toNat - '0'.toNat)) 0

/-- Parse a nonempty all-digit string; `none` otherwise. -/
def parseDigitsVal (l : List Char) : Option ℕ :=
  if l.isEmpty then none
  else if l.all Char.isDigit then some (digitsToNat l) else none

/-- Python `int(s)` on a whitespace-free token: optional sign, digits. -/
def pyParseInt (l : List Char) : Option ℤ :=
  match l with
  | '+' :: r => (parseDigitsVal r).map (fun n => (n : ℤ))
  | '-' :: r => (parseDigitsVal r).map (fun n => -(n : ℤ))
  | r => (parseDigitsVal r).map (fun n => (n : ℤ))

/-- Parse what follows the `e`/`E` of a float literal: an optionally signed
digit string, giving the scale factor `10 ^ exp`. -/
def parseExpTail (l : List Char) : Option ℚ :=
  match l with
  | '+' :: r => (parseDigitsVal r).map (fun n => ((10 : ℚ) ^ n))
  | '-' :: r => (parseDigitsVal r).map (fun n => ((10 : ℚ) ^ n)⁻¹)
  | r => (parseDigitsVal r).map (fun n => ((10 : ℚ) ^ n))

/-- Optional exponent part of a float literal (`some 1` when absent). -/
def parseExpOpt (l : List Char) : Option ℚ :=
  match l with
  | [] => some 1
  | c :: r => if c = 'e' ∨ c = 'E' then parseExpTail r else none

/-- Unsigned part of Python `float(s)`: digits, optional `.` fraction,
optional exponent. -/
def parseUFloat (l : List Char) : Option ℚ :=
  let ip := l.takeWhile Char.isDigit
  let rest := l.dropWhile Char.isDigit
  match rest with
  | '.' :: r2 =>
    let fp := r2.takeWhile Char.isDigit
    let r3 := r2.dropWhile Char.isDigit
    if ip.isEmpty && fp.isEmpty then none
    else
      (parseExpOpt r3).map
        (fun e => ((digitsToNat ip : ℚ) + (digitsToNat fp : ℚ) / 10 ^ fp.length) * e)
  | rest' =>
    if ip.isEmpty then none
    else (parseExpOpt rest').map (fun e => (digitsToNat ip : ℚ) * e)

/-- Python `float(s)` on a whitespace-free token (finite decimal literals). -/
def pyParseFloat (l : List Char) : Option ℚ :=
  match l with
  | '+' :: r => parseUFloat r
  | '-' :: r => (parseUFloat r).map Neg.neg
  | r => parseUFloat r

/-- Parse the five tokens of one label line:
`cls_id = int(parts[0]); x, y, w, h = map(float, parts[1:])`.
`none` when any token fails to parse (the Python calls raise). -/
def parseLine (parts : List (List Char)) : Option Box :=
  match parts with
  | [p0, p1, p2, p3, p4] => do
    let cls ← pyParseInt p0
    let x ← pyParseFloat p1
    let y ← pyParseFloat p2
    let w ← pyParseFloat p3
    let h ← pyParseFloat p4
    pure ⟨cls, x, y, w, h⟩
  | _ => none

/-- The line loop of `load_annotations_for_current_image` (src lines
650-662).  For each line: strip; skip if empty; split on whitespace; skip
if not exactly 5 tokens; otherwise parse the tokens and append the box.
The whole loop runs inside a single `try`, so a token that fails numeric
parsing raises, ending the loop: the boxes appended so far are kept, the
remaining lines are not processed, and the `Bool` records that the
exception handler (a warning dialog) ran. -/
def decodeAux : List (List Char) → List Box × Bool
  | [] => ([], false)
  | l :: rest =>
    let st := pyStrip l
    if st.isEmpty then decodeAux rest
    else if (pySplitWS st).length = 5 then
      match parseLine (pySplitWS st) with
      | some b => ((b :: (decodeAux rest).1), (decodeAux rest).2)
      | none => ([], true)
    else decodeAux rest

/-- Decode a whole label-file text (split into lines at newlines). -/
def decodeContent (content : List Char) : List Box × Bool :=
  decodeAux (splitOnChar '\n' content)

/-- Round-half-even of a rational to an integer: the rounding performed by
Python's fixed-point float formatting. -/
def roundHE (q : ℚ) : ℤ :=
  if q - ⌊q⌋ < 1/2 then ⌊q⌋
  else if 1/2 < q - ⌊q⌋ then ⌊q⌋ + 1
  else if Even ⌊q⌋ then ⌊q⌋ else ⌊q⌋ + 1

/-- Decimal digit characters of a natural number, most significant first
(the digits of Python `str(n)` for `n ≥ 0`). -/
def natDigitsCh (n : ℕ) : List Char :=
  if _h : n < 10 then [Nat.digitChar n]
  else natDigitsCh (n / 10) ++ [Nat.digitChar (n % 10)]
termination_by n
decreasing_by exact Nat.div_lt_self (by omega) (by omega)

/-- The six decimal digit characters of `m % 10 ^ 6`, most significant
first: the zero-padded fractional part of `.6f` formatting. -/
def sixDigits (m : ℕ) : List Char :=
  [Nat.digitChar (m / 100000 % 10), Nat.digitChar (m / 10000 % 10),
   Nat.digitChar (m / 1000 % 10), Nat.digitChar (m / 100 % 10),
   Nat.digitChar (m / 10 % 10), Nat.digitChar (m % 10)]

/-- Python `f"{q:.6f}"`: sign, integer part, `.`, exactly six fractional
digits, rounding half to even.  Never scientific notation. -/
def fmt6 (q : ℚ) : List Char :=
  (if q < 0 then ['-'] else []) ++
    natDigitsCh ((roundHE (|q| * 1000000)).toNat / 1000000) ++
    '.' :: sixDigits ((roundHE (|q| * 1000000)).toNat % 1000000)

/-- Python `str()` of an int. -/
def renderInt (i : ℤ) : List Char :=
  (if i < 0 then ['-'] else []) ++ natDigitsCh i.natAbs

/-- One line written by `save_current_annotations` (src lines 677-679):
`f"{cls_id} {x:.6f} {y:.6f} {w:.6f} {h:.6f}"` (without its newline). -/
def encodeLine (b : Box) : List Char :=
  renderInt b.class_index ++ ' ' :: fmt6 b.x_center ++ ' ' :: fmt6 b.y_center ++
    ' ' :: fmt6 b.width ++ ' ' :: fmt6 b.height

/-- The full text `save_current_annotations` writes: each line followed by
a newline, one line per box, in the store's order. -/
def encodeText (bs : List Box) : List Char :=
  (bs.map (fun b => encodeLine b ++ ['\n'])).flatten

/-- The YOLO-normalized box built by `add_annotation` (src lines 200-208):
`x_center = ((x1+x2)/2)/w`, `y_center = ((y1+y2)/2)/h`,
`width = |x2-x1|/w`, `height = |y2-y1|/h`. -/
def yoloBox (cls : ℤ) (w h : ℕ) (x1 y1 x2 y2 : ℤ) : Box :=
  ⟨cls, ((x1 : ℚ) + (x2 : ℚ)) / 2 / (w : ℚ), ((y1 : ℚ) + (y2 : ℚ)) / 2 / (h : ℚ),
    |(x2 : ℚ) - (x1 : ℚ)| / (w : ℚ), |(y2 : ℚ) - (y1 : ℚ)| / (h : ℚ)⟩

/-- `add_annotation` (src lines 188-208) on an image of size `w × h` with
drawing endpoints `(x1,y1)`, `(x2,y2)` in image pixels: rejected as a no-op
when either extent is below `min_box_size`, otherwise the converted box is
appended to the annotation list. -/
def addAnnot (cls : ℤ) (minSize : ℕ) (w h : ℕ) (x1 y1 x2 y2 : ℤ)
    (anns : List Box) : List Box :=
  if |x2 - x1| < (minSize : ℤ) ∨ |y2 - y1| < (minSize : ℤ) then anns
  else anns ++ [yoloBox cls w h x1 y1 x2 y2]

/-- `x1 = int((x_center - width/2) * w)` of the hit-test loops (src lines
223-226 and 244-247). -/
def denormX1 (w : ℕ) (b : Box) : ℤ := pytrunc ((b.x_center - b.width / 2) * (w : ℚ))

/-- `y1 = int((y_center - height/2) * h)` of the hit-test loops. -/
def denormY1 (h : ℕ) (b : Box) : ℤ := pytrunc ((b.y_center - b.height / 2) * (h : ℚ))

/-- `x2 = int((x_center + width/2) * w)` of the hit-test loops. -/
def denormX2 (w : ℕ) (b : Box) : ℤ := pytrunc ((b.x_center + b.width / 2) * (w : ℚ))

/-- `y2 = int((y_center + height/2) * h)` of the hit-test loops. -/
def denormY2 (h : ℕ) (b : Box) : ℤ := pytrunc ((b.y_center + b.height / 2) * (h : ℚ))

/-- The containment test `x1 <= x <= x2 and y1 <= y <= y2` both hit-test
loops apply to a box's denormalized rectangle. -/
def insideB (w h : ℕ) (x y : ℤ) (b : Box) : Bool :=
  decide (denormX1 w b ≤ x ∧ x ≤ denormX2 w b ∧ denormY1 h b ≤ y ∧ y ≤ denormY2 h b)

/-- Hit-testing as §4.2 of the spec describes it: index of the first box in
insertion order whose denormalized rectangle contains the point. -/
def hit_test (w h : ℕ) (x y : ℤ) : List Box → Option ℕ
  | [] => none
  | b :: rest =>
    if insideB w h x y b then some 0 else (hit_test w h x y rest).map (· + 1)

/-- `delete_annotation_at` (src lines 215-234): scan the annotation list in
order; delete the first box containing the point and stop (`break`). -/
def deleteAnnotAt (w h : ℕ) (x y : ℤ) : List Box → List Box
  | [] => []
  | b :: rest =>
    if insideB w h x y b then rest else b :: deleteAnnotAt w h x y rest

/-- The scan of `cycle_class_at` (src lines 243-256): the first box
containing the point gets class `(cls_id + 1) % len(class_names)` and the
loop stops (`break`). -/
def cycleGo (w h : ℕ) (x y : ℤ) (ncls : ℕ) : List Box → List Box
  | [] => []
  | b :: rest =>
    if insideB w h x y b then
      { b with class_index := (b.class_index + 1).emod (ncls : ℤ) } :: rest
    else b :: cycleGo w h x y ncls rest

/-- `cycle_class_at` (src lines 236-256): a no-op when no classes are
registered, otherwise the first-match scan. -/
def cycle_class_at (w h : ℕ) (x y : ℤ) (ncls : ℕ) (bs : List Box) : List Box :=
  if ncls = 0 then bs else cycleGo w h x y ncls bs

/-- `widget_to_image_coords` (src lines 117-131): `None` when
`scale_factor == 0` (or no image, which the `w h` parameters presuppose);
otherwise un-offset, un-scale, truncate to int and clamp into
`[0, w-1] × [0, h-1]`. -/
def widget_to_image_coords (w h : ℕ) (scale : ℚ) (offX offY x y : ℤ) :
    Option (ℤ × ℤ) :=
  if scale = 0 then none
  else some (max 0 (min (pytrunc (((x : ℚ) - (offX : ℚ)) / scale)) ((w : ℤ) - 1)),
             max 0 (min (pytrunc (((y : ℚ) - (offY : ℚ)) / scale)) ((h : ℤ) - 1)))

/-- The boxes drawn by `update_display` (src lines 71-87): the loop draws a
box only when `cls_id < len(self.class_names)` and never mutates the
annotation list. -/
def displayedBoxes (ncls : ℕ) : List Box → List Box
  | [] => []
  | b :: rest =>
    if b.class_index < (ncls : ℤ) then b :: displayedBoxes ncls rest
    else displayedBoxes ncls rest

/-- The engine state the claims depend on: the image file list and current
index of the navigator, whether an output folder is configured, the
in-memory annotation list of the current image, the label file contents on
disk (indexed by image position; `none` = no file), and the class registry
(`self.classes`, mirrored into the viewer by `generate_class_colors`). -/
structure AppState where
  imageFiles : List String
  currentIndex : ℕ
  outputFolder : Bool
  annots : List Box
  disk : ℕ → Option (List Char)
  classes : List String

/-- `save_current_annotations` (src lines 664-681): a no-op without images
or output folder; otherwise writes the encoded text of the in-memory list
to the current image's label file (modelled as always succeeding). -/
def save_current_annots (s : AppState) : AppState :=
  if s.imageFiles = [] ∨ s.outputFolder = false then s
  else { s with disk := fun i =>
          if i = s.currentIndex then some (encodeText s.annots) else s.disk i }

/-- `load_annotations_for_current_image` (src lines 639-662): a no-op
without images or output folder; otherwise the store is cleared and, when
the label file exists, refilled with its decoded boxes (a parse exception
keeps the boxes decoded so far, per `decodeAux`). -/
def load_annots_current (s : AppState) : AppState :=
  if s.imageFiles = [] ∨ s.outputFolder = false then s
  else { s with annots := match s.disk s.currentIndex with
                          | none => []
                          | some c => (decodeContent c).1 }

/-- `next_image` (src lines 865-870): with a non-empty image list, first
auto-save the current image's annotations, then advance the index by one
modulo the list length, then load the new current image's annotations
(`load_current_image`, modelled with the image always readable). -/
def next_image (s : AppState) : AppState :=
  if s.imageFiles = [] then s
  else load_annots_current
    { save_current_annots s with
        currentIndex := (((s.currentIndex : ℤ) + 1).emod (s.imageFiles.length : ℤ)).toNat }

/-- `previous_image` (src lines 858-863): same as `next_image` with the
index decremented by one modulo the list length. -/
def previous_image (s : AppState) : AppState :=
  if s.imageFiles = [] then s
  else load_annots_current
    { save_current_annots s with
        currentIndex := (((s.currentIndex : ℤ) - 1).emod (s.imageFiles.length : ℤ)).toNat }

/-- `remove_class` (src lines 697-703) for a selected row: `del
self.classes[current_row]`, then the display helpers copy the list into the
viewer; nothing touches the annotation store or the disk. -/
def remove_class (s : AppState) (idx : ℕ) : AppState :=
  { s with classes := s.classes.eraseIdx idx }

/-- Modelled from the spec's words (§4.4, external interface §6): a token
that is a decimal integer — an optional minus sign followed by one or more
digits.  Used only to state what an emitted class field must look like. -/
def isIntTok : List Char → Bool
  | [] => false
  | c :: r =>
    if c = '-' then !r.isEmpty && r.all Char.isDigit
    else (c :: r).all Char.isDigit && true

/-- Modelled from the spec's words: an unsigned six-decimal fixed-point
literal — digits, a dot, exactly six digits; no exponent is possible in
this shape.  Stated by splitting the token at its dot. -/
def isFixed6Core (l : List Char) : Bool :=
  match splitOnChar '.' l with
  | [ip, fp] => !ip.isEmpty && ip.all Char.isDigit && (fp.length == 6) && fp.all Char.isDigit
  | _ => false

/-- Modelled from the spec's words: a six-decimal fixed-point literal with
an optional minus sign. -/
def isFixed6 : List Char → Bool
  | [] => false
  | c :: r => if c = '-' then isFixed6Core r else isFixed6Core (c :: r)

/-- Modelled from the spec's words (§4.4 `encode`): a well-formed label
line — exactly five space-separated fields, the first a decimal integer,
the rest six-decimal fixed-point floats (hence no scientific notation). -/
def isYoloLine (l : List Char) : Bool :=
  match splitOnChar ' ' l with
  | [f0, f1, f2, f3, f4] =>
    isIntTok f0 && isFixed6 f1 && isFixed6 f2 && isFixed6 f3 && isFixed6 f4
  | _ => false

/-- Fixture: the malformed-line-tolerance text of the spec (§8). -/
def c1text : String := "0 0.5 0.5 0.2 0.2\nGARBAGE\n1 0.1 0.1 0.05 0.05\n"

/-- Fixture: same text with the middle line replaced by one that has five
tokens but a token that fails float parsing. -/
def c1badText : String := "0 0.5 0.5 0.2 0.2\n0 oops 0.5 0.2 0.2\n1 0.1 0.1 0.05 0.05\n"

/-- Fixture: a label file whose single line stores out-of-range
normalized values. -/
def c10diskText : String := "0 2.5 0.5 3.0 0.2\n"

/-- Fixture image file names and class names. -/
def imgA : String := "img000.jpg"

/-- Fixture: second image file name. -/
def imgB : String := "img001.jpg"

/-- Fixture: a class name. -/
def clsPerson : String := "person"

/-- Fixture: another class name. -/
def clsCar : String := "car"

/-- Fixture: a large box with class 0. -/
def boxHalf : Box := ⟨0, 1/2, 1/2, 1/2, 1/2⟩

/-- Fixture: a smaller box with class 1, overlapping `boxHalf`. -/
def boxQuarter : Box := ⟨1, 1/2, 1/2, 1/4, 1/4⟩

/-- Fixture: a box whose class index 5 references no registered class. -/
def boxStale : Box := ⟨5, 1/2, 1/2, 1/4, 1/4⟩

/-- Fixture: one image, one registered class, and a stale-class box in the
store; nothing on disk yet. -/
def c2state : AppState := ⟨[imgA], 0, true, [boxStale], fun _ => none, [clsPerson]⟩

/-- Fixture: two images, index 0, a box in the store, empty disk. -/
def c3state : AppState := ⟨[imgA, imgB], 0, true, [boxHalf], fun _ => none, [clsPerson]⟩

/-- Fixture: a state with two registered classes. -/
def c9state : AppState := ⟨[imgA], 0, true, [boxStale], fun _ => none, [clsPerson, clsCar]⟩

/-- Fixture: the label-file text that saving `c2state` produces. -/
def c2lineText : String := "5 0.500000 0.500000 0.250000 0.250000\n"

theorem pytrunc_intCast (n : ℤ) : pytrunc (n : ℚ) = n := by
  unfold pytrunc
  split
  · exact Int.floor_intCast n
  · exact Int.ceil_intCast n

theorem trunc_center_sub (w : ℕ) (a b : ℤ) (hw : 0 < w) (hab : a ≤ b) :
    pytrunc ((((a : ℚ) + (b : ℚ)) / 2 / (w : ℚ) - |(b : ℚ) - (a : ℚ)| / (w : ℚ) / 2) * (w : ℚ)) = a := by
  have hw0 : (w : ℚ) ≠ 0 := Nat.cast_ne_zero.mpr hw.ne'
  have habs : |(b : ℚ) - (a : ℚ)| = (b : ℚ) - (a : ℚ) :=
    abs_of_nonneg (sub_nonneg.mpr (by exact_mod_cast hab))
  have key : (((a : ℚ) + (b : ℚ)) / 2 / (w : ℚ) - ((b : ℚ) - (a : ℚ)) / (w : ℚ) / 2) * (w : ℚ)
      = ((a : ℤ) : ℚ) := by
    field_simp
    ring
  rw [habs, key, pytrunc_intCast]

theorem trunc_center_add (w : ℕ) (a b : ℤ) (hw : 0 < w) (hab : a ≤ b) :
    pytrunc ((((a : ℚ) + (b : ℚ)) / 2 / (w : ℚ) + |(b : ℚ) - (a : ℚ)| / (w : ℚ) / 2) * (w : ℚ)) = b := by
  have hw0 : (w : ℚ) ≠ 0 := Nat.cast_ne_zero.mpr hw.ne'
  have habs : |(b : ℚ) - (a : ℚ)| = (b : ℚ) - (a : ℚ) :=
    abs_of_nonneg (sub_nonneg.mpr (by exact_mod_cast hab))
  have key : (((a : ℚ) + (b : ℚ)) / 2 / (w : ℚ) + ((b : ℚ) - (a : ℚ)) / (w : ℚ) / 2) * (w : ℚ)
      = ((b : ℤ) : ℚ) := by
    field_simp
    ring
  rw [habs, key, pytrunc_intCast]

/-- Claim C5: creation is rejected as a pure no-op exactly when either
extent is below `min_box_size`; otherwise the box with the YOLO conversion
formulas is appended at the end and the length grows by exactly one. -/
theorem C5_create_rejection (cls : ℤ) (minSize w h : ℕ) (x1 y1 x2 y2 : ℤ)
    (anns : List Box) :
    ((|x2 - x1| < (minSize : ℤ) ∨ |y2 - y1| < (minSize : ℤ)) →
      addAnnot cls minSize w h x1 y1 x2 y2 anns = anns) ∧
    (¬(|x2 - x1| < (minSize : ℤ) ∨ |y2 - y1| < (minSize : ℤ)) →
      addAnnot cls minSize w h x1 y1 x2 y2 anns =
        anns ++ [⟨cls, ((x1 : ℚ) + (x2 : ℚ)) / 2 / (w : ℚ), ((y1 : ℚ) + (y2 : ℚ)) / 2 / (h : ℚ),
          |(x2 : ℚ) - (x1 : ℚ)| / (w : ℚ), |(y2 : ℚ) - (y1 : ℚ)| / (h : ℚ)⟩] ∧
      (addAnnot cls minSize w h x1 y1 x2 y2 anns).length = anns.length + 1) := by
  constructor
  · intro hrej
    simp only [addAnnot, if_pos hrej]
  · intro hacc
    refine ⟨?_, ?_⟩
    · simp only [addAnnot, if_neg hacc, yoloBox]
    · simp only [addAnnot, if_neg hacc, List.length_append, List.length_singleton]

/-- Witness for C5: the spec's own example — a 2-pixel-wide drag with
`min_box_size = 10` is rejected and the store stays empty. -/
theorem C5_create_rejection_witness :
    addAnnot 0 10 640 480 10 10 12 20 [] = [] :=
  (C5_create_rejection 0 10 640 480 10 10 12 20 []).1 (by decide)

/-- Claim C6: converting a pixel rectangle (corners ordered, both extents
at least 2 pixels) to a normalized box as `add_annotation` does, then
denormalizing as the hit-test loops do, reproduces the original rectangle
within one pixel in every coordinate (in the rational model the round trip
is in fact exact). -/
theorem C6_roundtrip (cls : ℤ) (w h : ℕ) (x1 y1 x2 y2 : ℤ)
    (hw : 0 < w) (hh : 0 < h) (hx12 : x1 ≤ x2) (hy12 : y1 ≤ y2)
    (_hxw : 2 ≤ x2 - x1) (_hyw : 2 ≤ y2 - y1) :
    |denormX1 w (yoloBox cls w h x1 y1 x2 y2) - x1| ≤ 1 ∧
    |denormY1 h (yoloBox cls w h x1 y1 x2 y2) - y1| ≤ 1 ∧
    |denormX2 w (yoloBox cls w h x1 y1 x2 y2) - x2| ≤ 1 ∧
    |denormY2 h (yoloBox cls w h x1 y1 x2 y2) - y2| ≤ 1 := by
  unfold denormX1 denormX2 denormY1 denormY2 yoloBox
  refine ⟨?_, ?_, ?_, ?_⟩
  · rw [trunc_center_sub w x1 x2 hw hx12]
    simp
  · rw [trunc_center_sub h y1 y2 hh hy12]
    simp
  · rw [trunc_center_add w x1 x2 hw hx12]
    simp
  · rw [trunc_center_add h y1 y2 hh hy12]
    simp

/-- Witness for C6 at a concrete rectangle on a 100 by 100 image. -/
theorem C6_roundtrip_witness :
    |denormX1 100 (yoloBox 0 100 100 10 20 30 60) - 10| ≤ 1 ∧
    |denormY1 100 (yoloBox 0 100 100 10 20 30 60) - 20| ≤ 1 ∧
    |denormX2 100 (yoloBox 0 100 100 10 20 30 60) - 30| ≤ 1 ∧
    |denormY2 100 (yoloBox 0 100 100 10 20 30 60) - 60| ≤ 1 :=
  C6_roundtrip 0 100 100 10 20 30 60 (by decide) (by decide) (by decide)
    (by decide) (by decide) (by decide)

theorem toNat_emod_succ (i n : ℕ) (_hn : 0 < n) :
    ((((i : ℤ) + 1) % (n : ℤ)).toNat) = (i + 1) % n := by
  have h1 : ((i : ℤ) + 1) = ((i + 1 : ℕ) : ℤ) := by push_cast; ring
  rw [h1, ← Int.natCast_mod, Int.toNat_natCast]

theorem toNat_emod_pred (i n : ℕ) (hn : 0 < n) :
    ((((i : ℤ) - 1) % (n : ℤ)).toNat) = (i + n - 1) % n := by
  have h1 : ((i + n - 1 : ℕ) : ℤ) = ((i : ℤ) - 1) + (n : ℤ) * 1 := by omega
  calc (((i : ℤ) - 1) % (n : ℤ)).toNat
      = ((((i : ℤ) - 1) + (n : ℤ) * 1) % (n : ℤ)).toNat := by
        rw [Int.add_mul_emod_self_left]
    _ = (((i + n - 1 : ℕ) : ℤ) % ((n : ℕ) : ℤ)).toNat := by rw [h1]
    _ = (i + n - 1) % n := by rw [← Int.natCast_mod, Int.toNat_natCast]

theorem save_imageFiles (s : AppState) :
    (save_current_annots s).imageFiles = s.imageFiles := by
  unfold save_current_annots
  split <;> rfl

theorem save_outputFolder (s : AppState) :
    (save_current_annots s).outputFolder = s.outputFolder := by
  unfold save_current_annots
  split <;> rfl

theorem save_annots_frame (s : AppState) :
    (save_current_annots s).annots = s.annots := by
  unfold save_current_annots
  split <;> rfl

theorem save_currentIndex (s : AppState) :
    (save_current_annots s).currentIndex = s.currentIndex := by
  unfold save_current_annots
  split <;> rfl

theorem load_currentIndex (s : AppState) :
    (load_annots_current s).currentIndex = s.currentIndex := by
  unfold load_annots_current
  split <;> rfl

theorem load_disk (s : AppState) :
    (load_annots_current s).disk = s.disk := by
  unfold load_annots_current
  split <;> rfl

theorem save_disk_eq (s : AppState) (h1 : s.imageFiles ≠ []) (h2 : s.outputFolder = true) :
    (save_current_annots s).disk = fun i =>
      if i = s.currentIndex then some (encodeText s.annots) else s.disk i := by
  unfold save_current_annots
  rw [if_neg (by simp [h1, h2])]

theorem load_annots_eq (s : AppState) (h1 : s.imageFiles ≠ []) (h2 : s.outputFolder = true) :
    (load_annots_current s).annots =
      match s.disk s.currentIndex with
      | none => []
      | some c => (decodeContent c).1 := by
  unfold load_annots_current
  rw [if_neg (by simp [h1, h2])]

/-- Claim C8: with a non-empty image list of length `N` and a current index
in range, `next_image` sets the index to `(i + 1) mod N` and
`previous_image` to `(i - 1) mod N` (written `(i + N - 1) mod N` over ℕ);
in particular previous wraps `0` to `N - 1` and next wraps `N - 1` to `0`. -/
theorem C8_navigation_wraps (s : AppState) (hne : s.imageFiles ≠ [])
    (hidx : s.currentIndex < s.imageFiles.length) :
    (next_image s).currentIndex = (s.currentIndex + 1) % s.imageFiles.length ∧
    (previous_image s).currentIndex =
      (s.currentIndex + s.imageFiles.length - 1) % s.imageFiles.length ∧
    (s.currentIndex = 0 →
      (previous_image s).currentIndex = s.imageFiles.length - 1) ∧
    (s.currentIndex = s.imageFiles.length - 1 →
      (next_image s).currentIndex = 0) := by
  have hn : 0 < s.imageFiles.length := List.length_pos.mpr hne
  have hnext : (next_image s).currentIndex = (s.currentIndex + 1) % s.imageFiles.length := by
    unfold next_image
    rw [if_neg hne, load_currentIndex]
    exact toNat_emod_succ _ _ hn
  have hprev : (previous_image s).currentIndex =
      (s.currentIndex + s.imageFiles.length - 1) % s.imageFiles.length := by
    unfold previous_image
    rw [if_neg hne, load_currentIndex]
    exact toNat_emod_pred _ _ hn
  refine ⟨hnext, hprev, ?_, ?_⟩
  · intro h0
    rw [hprev, h0, Nat.zero_add]
    exact Nat.mod_eq_of_lt (by omega)
  · intro hlast
    rw [hnext, hlast]
    have : s.imageFiles.length - 1 + 1 = s.imageFiles.length := by omega
    rw [this, Nat.mod_self]

/-- Witness for C8 on a two-image session at index 0: next goes to 1,
previous wraps to 1 as well (`N - 1 = 1`). -/
theorem C8_navigation_wraps_witness :
    (next_image c3state).currentIndex = (c3state.currentIndex + 1) % c3state.imageFiles.length ∧
    (previous_image c3state).currentIndex =
      (c3state.currentIndex + c3state.imageFiles.length - 1) % c3state.imageFiles.length ∧
    (c3state.currentIndex = 0 →
      (previous_image c3state).currentIndex = c3state.imageFiles.length - 1) ∧
    (c3state.currentIndex = c3state.imageFiles.length - 1 →
      (next_image c3state).currentIndex = 0) :=
  C8_navigation_wraps c3state (by decide) (by decide)

/-- Claim C9: removing a registered class at a valid index deletes exactly
that registry entry (the entries before it keep their positions, the ones
after shift down by one) and changes nothing else: the annotation store,
the disk, the image list and the current index are untouched — no box is
deleted and no class index stored in a box is renumbered. -/
theorem C9_remove_class_frame (s : AppState) (idx : ℕ) (hidx : idx < s.classes.length) :
    (remove_class s idx).classes = s.classes.take idx ++ s.classes.drop (idx + 1) ∧
    (remove_class s idx).classes.length = s.classes.length - 1 ∧
    (remove_class s idx).annots = s.annots ∧
    (remove_class s idx).disk = s.disk ∧
    (remove_class s idx).imageFiles = s.imageFiles ∧
    (remove_class s idx).currentIndex = s.currentIndex := by
  refine ⟨?_, ?_, rfl, rfl, rfl, rfl⟩
  · exact List.eraseIdx_eq_take_drop_succ s.classes idx
  · show (s.classes.eraseIdx idx).length = s.classes.length - 1
    rw [List.length_eraseIdx]
    simp [hidx]

/-- Witness for C9: removing class 0 from a two-class registry. -/
theorem C9_remove_class_frame_witness :
    (remove_class c9state 0).classes = c9state.classes.take 0 ++ c9state.classes.drop 1 ∧
    (remove_class c9state 0).classes.length = c9state.classes.length - 1 ∧
    (remove_class c9state 0).annots = c9state.annots ∧
    (remove_class c9state 0).disk = c9state.disk ∧
    (remove_class c9state 0).imageFiles = c9state.imageFiles ∧
    (remove_class c9state 0).currentIndex = c9state.currentIndex :=
  C9_remove_class_frame c9state 0 (by decide)

/-- Claim C3: on every navigation with a non-empty image list (and an
output folder configured, without which no label file exists), the
outgoing image's in-memory annotations are written to its label file, and
the incoming image's store is computed from the disk as it stands after
that save — the save happens before the index changes and before the load. -/
theorem C3_save_before_switch (s : AppState) (hne : s.imageFiles ≠ [])
    (hout : s.outputFolder = true) :
    (next_image s).disk s.currentIndex = some (encodeText s.annots) ∧
    (next_image s).annots =
      (match (save_current_annots s).disk
          ((((s.currentIndex : ℤ) + 1) % (s.imageFiles.length : ℤ)).toNat) with
        | none => []
        | some c => (decodeContent c).1) ∧
    (previous_image s).disk s.currentIndex = some (encodeText s.annots) ∧
    (previous_image s).annots =
      (match (save_current_annots s).disk
          ((((s.currentIndex : ℤ) - 1) % (s.imageFiles.length : ℤ)).toNat) with
        | none => []
        | some c => (decodeContent c).1) := by
  have hsi : (save_current_annots s).imageFiles ≠ [] := by
    rw [save_imageFiles]
    exact hne
  have hso : (save_current_annots s).outputFolder = true := by
    rw [save_outputFolder]
    exact hout
  refine ⟨?_, ?_, ?_, ?_⟩
  · unfold next_image
    rw [if_neg hne, load_disk]
    show (save_current_annots s).disk s.currentIndex = some (encodeText s.annots)
    rw [save_disk_eq s hne hout]
    simp
  · unfold next_image
    rw [if_neg hne]
    refine load_annots_eq _ ?_ ?_
    · exact hsi
    · exact hso
  · unfold previous_image
    rw [if_neg hne, load_disk]
    show (save_current_annots s).disk s.currentIndex = some (encodeText s.annots)
    rw [save_disk_eq s hne hout]
    simp
  · unfold previous_image
    rw [if_neg hne]
    refine load_annots_eq _ ?_ ?_
    · exact hsi
    · exact hso

/-- Witness for C3 on a concrete two-image session. -/
theorem C3_save_before_switch_witness :
    (next_image c3state).disk c3state.currentIndex = some (encodeText c3state.annots) ∧
    (next_image c3state).annots =
      (match (save_current_annots c3state).disk
          ((((c3state.currentIndex : ℤ) + 1) % (c3state.imageFiles.length : ℤ)).toNat) with
        | none => []
        | some c => (decodeContent c).1) ∧
    (previous_image c3state).disk c3state.currentIndex = some (encodeText c3state.annots) ∧
    (previous_image c3state).annots =
      (match (save_current_annots c3state).disk
          ((((c3state.currentIndex : ℤ) - 1) % (c3state.imageFiles.length : ℤ)).toNat) with
        | none => []
        | some c => (decodeContent c).1) :=
  C3_save_before_switch c3state (by decide) rfl

unseal Rat.mul Rat.inv Rat.add in
/-- Claim C1 (corrected): the decoder drops, silently and individually,
every line that is empty after stripping or does not split into exactly
five tokens, and continues with the remaining lines; but a five-token line
with a token that fails numeric parsing raises inside the single `try`
around the loop, so it aborts the decode, keeping only the boxes of the
lines before it.  A five-token line whose tokens parse appends its box and
continues.  On the spec's concrete text the middle line `GARBAGE` has one
token, so decoding yields exactly the class-0 and class-1 boxes in order. -/
theorem C1_malformed_line_handling :
    (∀ l rest, (pyStrip l).isEmpty = true → decodeAux (l :: rest) = decodeAux rest) ∧
    (∀ l rest, (pyStrip l).isEmpty = false → (pySplitWS (pyStrip l)).length ≠ 5 →
      decodeAux (l :: rest) = decodeAux rest) ∧
    (∀ l rest, (pyStrip l).isEmpty = false → (pySplitWS (pyStrip l)).length = 5 →
      parseLine (pySplitWS (pyStrip l)) = none →
      decodeAux (l :: rest) = ([], true)) ∧
    (∀ l rest b, (pyStrip l).isEmpty = false → (pySplitWS (pyStrip l)).length = 5 →
      parseLine (pySplitWS (pyStrip l)) = some b →
      decodeAux (l :: rest) = (b :: (decodeAux rest).1, (decodeAux rest).2)) ∧
    decodeContent c1text.toList =
      ([⟨0, 1/2, 1/2, 1/5, 1/5⟩, ⟨1, 1/10, 1/10, 1/20, 1/20⟩], false) := by
  refine ⟨?_, ?_, ?_, ?_, ?_⟩
  · intro l rest hempty
    simp [decodeAux, hempty]
  · intro l rest hempty hlen
    simp [decodeAux, hempty, hlen]
  · intro l rest hempty hlen hparse
    simp [decodeAux, hempty, hlen, hparse]
  · intro l rest b hempty hlen hparse
    simp [decodeAux, hempty, hlen, hparse]
  · decide

unseal Rat.mul Rat.inv Rat.add in
/-- Counterexample to C1 as stated: in
`"0 0.5 0.5 0.2 0.2\n0 oops 0.5 0.2 0.2\n1 0.1 0.1 0.05 0.05\n"` the middle
line has five tokens but `oops` fails float parsing; decoding stops there
(the `Bool` is the exception flag), so the well-formed class-1 line is NOT
decoded — one bad line does prevent a later well-formed line from loading,
and the failure is not silent. -/
theorem C1_counterexample :
    decodeContent c1badText.toList = ([⟨0, 1/2, 1/2, 1/5, 1/5⟩], true) := by
  decide

/-- Witness for C1: a one-token line (an image name) is dropped and
decoding continues. -/
theorem C1_malformed_line_handling_witness :
    decodeAux [imgA.toList] = decodeAux [] :=
  (C1_malformed_line_handling).2.1 imgA.toList [] (by decide) (by decide)

theorem digitChar_isDigit {d : ℕ} (h : d < 10) : (Nat.digitChar d).isDigit = true := by
  interval_cases d <;> decide

theorem mem_natDigitsCh {n : ℕ} {c : Char} (hc : c ∈ natDigitsCh n) : c.isDigit = true := by
  induction n using Nat.strong_induction_on with
  | _ n ih =>
    rw [natDigitsCh] at hc
    by_cases h : n < 10
    · rw [dif_pos h] at hc
      simp only [List.mem_singleton] at hc
      subst hc
      exact digitChar_isDigit h
    · rw [dif_neg h] at hc
      rcases List.mem_append.1 hc with h1 | h1
      · exact ih _ (Nat.div_lt_self (by omega) (by omega)) h1
      · simp only [List.mem_singleton] at h1
        subst h1
        exact digitChar_isDigit (Nat.mod_lt _ (by omega))

theorem natDigitsCh_ne_nil (n : ℕ) : natDigitsCh n ≠ [] := by
  rw [natDigitsCh]
  by_cases h : n < 10
  · rw [dif_pos h]
    simp
  · rw [dif_neg h]
    simp

theorem natDigitsCh_isEmpty_false (n : ℕ) : (natDigitsCh n).isEmpty = false := by
  cases heq : natDigitsCh n with
  | nil => exact absurd heq (natDigitsCh_ne_nil n)
  | cons c cs => rfl

theorem natDigitsCh_all_isDigit (n : ℕ) : (natDigitsCh n).all Char.isDigit = true := by
  rw [List.all_eq_true]
  intro c hc
  exact mem_natDigitsCh hc

theorem mem_sixDigits {m : ℕ} {c : Char} (hc : c ∈ sixDigits m) : c.isDigit = true := by
  simp only [sixDigits, List.mem_cons, List.not_mem_nil, or_false] at hc
  rcases hc with rfl | rfl | rfl | rfl | rfl | rfl <;>
    exact digitChar_isDigit (Nat.mod_lt _ (by omega))

theorem sixDigits_all_isDigit (m : ℕ) : (sixDigits m).all Char.isDigit = true := by
  rw [List.all_eq_true]
  intro c hc
  exact mem_sixDigits hc

theorem mem_fmt6 {q : ℚ} {c : Char} (hc : c ∈ fmt6 q) :
    c = '-' ∨ c = '.' ∨ c.isDigit = true := by
  unfold fmt6 at hc
  rcases List.mem_append.1 hc with h1 | h1
  · rcases List.mem_append.1 h1 with h2 | h2
    · by_cases hq : q < 0
      · rw [if_pos hq] at h2
        simp only [List.mem_singleton] at h2
        exact Or.inl h2
      · rw [if_neg hq] at h2
        simp at h2
    · exact Or.inr (Or.inr (mem_natDigitsCh h2))
  · rcases List.mem_cons.1 h1 with h2 | h2
    · exact Or.inr (Or.inl h2)
    · exact Or.inr (Or.inr (mem_sixDigits h2))

theorem mem_renderInt {i : ℤ} {c : Char} (hc : c ∈ renderInt i) :
    c = '-' ∨ c.isDigit = true := by
  unfold renderInt at hc
  simp only [List.mem_append] at hc
  rcases hc with h1 | h1
  · by_cases hi : i < 0
    · rw [if_pos hi] at h1
      simp only [List.mem_singleton] at h1
      exact Or.inl h1
    · rw [if_neg hi] at h1
      simp at h1
  · exact Or.inr (mem_natDigitsCh h1)

theorem newline_not_mem_encodeLine (b : Box) : ('\n') ∉ encodeLine b := by
  have hr : ('\n') ∉ renderInt b.class_index := fun h => absurd (mem_renderInt h) (by decide)
  have hf : ∀ q : ℚ, ('\n') ∉ ' ' :: fmt6 q := by
    intro q h
    rcases List.mem_cons.1 h with h1 | h1
    · exact absurd h1 (by decide)
    · exact absurd (mem_fmt6 h1) (by decide)
  intro hc
  unfold encodeLine at hc
  rcases List.mem_append.1 hc with h1 | h1
  · rcases List.mem_append.1 h1 with h2 | h2
    · rcases List.mem_append.1 h2 with h3 | h3
      · rcases List.mem_append.1 h3 with h4 | h4
        · exact hr h4
        · exact hf _ h4
      · exact hf _ h3
    · exact hf _ h2
  · exact hf _ h1

theorem space_not_mem_renderInt (i : ℤ) : (' ') ∉ renderInt i := by
  intro hc
  exact absurd (mem_renderInt hc) (by decide)

theorem space_not_mem_fmt6 (q : ℚ) : (' ') ∉ fmt6 q := by
  intro hc
  exact absurd (mem_fmt6 hc) (by decide)

theorem dot_not_mem_natDigitsCh (n : ℕ) : ('.') ∉ natDigitsCh n := by
  intro hc
  exact absurd (mem_natDigitsCh hc) (by decide)

theorem dot_not_mem_sixDigits (m : ℕ) : ('.') ∉ sixDigits m := by
  intro hc
  exact absurd (mem_sixDigits hc) (by decide)

theorem splitOnChar_ne_nil (sep : Char) (l : List Char) : splitOnChar sep l ≠ [] := by
  induction l with
  | nil => simp [splitOnChar]
  | cons c rest ih =>
    simp only [splitOnChar]
    by_cases h : c = sep
    · simp [h]
    · rw [if_neg h]
      cases heq : splitOnChar sep rest with
      | nil => exact absurd heq ih
      | cons t ts => simp

theorem splitOnChar_no_sep (sep : Char) (l : List Char) (hl : sep ∉ l) :
    splitOnChar sep l = [l] := by
  induction l with
  | nil => rfl
  | cons c cs ih =>
    have hc : ¬(c = sep) := fun h => hl (by simp [h])
    have hcs : sep ∉ cs := fun h => hl (List.mem_cons_of_mem _ h)
    simp only [splitOnChar]
    rw [if_neg hc, ih hcs]

theorem splitOnChar_sep_cons (sep : Char) (pre rest : List Char) (hpre : sep ∉ pre) :
    splitOnChar sep (pre ++ sep :: rest) = pre :: splitOnChar sep rest := by
  induction pre with
  | nil =>
    simp [splitOnChar]
  | cons c cs ih =>
    have hc : ¬(c = sep) := fun h => hpre (by simp [h])
    have hcs : sep ∉ cs := fun h => hpre (List.mem_cons_of_mem _ h)
    rw [List.cons_append]
    simp only [splitOnChar]
    rw [if_neg hc, ih hcs]

theorem splitOnChar_encodeText (bs : List Box) :
    splitOnChar '\n' (encodeText bs) = bs.map encodeLine ++ [[]] := by
  induction bs with
  | nil => rfl
  | cons b rest ih =>
    have h1 : encodeText (b :: rest) = encodeLine b ++ '\n' :: encodeText rest := by
      unfold encodeText
      rw [List.map_cons, List.flatten_cons, List.append_assoc, List.singleton_append]
    rw [h1, splitOnChar_sep_cons '\n' _ _ (newline_not_mem_encodeLine b), ih,
        List.map_cons, List.cons_append]

theorem splitOnChar_space_encodeLine (b : Box) :
    splitOnChar ' ' (encodeLine b) =
      [renderInt b.class_index, fmt6 b.x_center, fmt6 b.y_center,
       fmt6 b.width, fmt6 b.height] := by
  unfold encodeLine
  simp only [List.cons_append, List.append_assoc]
  rw [splitOnChar_sep_cons ' ' _ _ (space_not_mem_renderInt b.class_index),
      splitOnChar_sep_cons ' ' _ _ (space_not_mem_fmt6 b.x_center),
      splitOnChar_sep_cons ' ' _ _ (space_not_mem_fmt6 b.y_center),
      splitOnChar_sep_cons ' ' _ _ (space_not_mem_fmt6 b.width),
      splitOnChar_no_sep ' ' _ (space_not_mem_fmt6 b.height)]

theorem isIntTok_renderInt (i : ℤ) : isIntTok (renderInt i) = true := by
  unfold renderInt
  by_cases hi : i < 0
  · rw [if_pos hi, List.singleton_append]
    simp only [isIntTok, if_pos rfl]
    rw [natDigitsCh_isEmpty_false, natDigitsCh_all_isDigit]
    rfl
  · rw [if_neg hi, List.nil_append]
    cases heq : natDigitsCh i.natAbs with
    | nil => exact absurd heq (natDigitsCh_ne_nil _)
    | cons c cs =>
      have hcd : c.isDigit = true := mem_natDigitsCh (heq ▸ List.mem_cons_self c cs)
      have hcne : ¬(c = '-') := by
        intro h
        rw [h] at hcd
        exact absurd hcd (by decide)
      simp only [isIntTok, if_neg hcne]
      rw [← heq, natDigitsCh_all_isDigit]
      rfl

theorem isFixed6Core_digits (k m : ℕ) :
    isFixed6Core (natDigitsCh k ++ '.' :: sixDigits m) = true := by
  unfold isFixed6Core
  rw [splitOnChar_sep_cons '.' _ _ (dot_not_mem_natDigitsCh k),
      splitOnChar_no_sep '.' _ (dot_not_mem_sixDigits m)]
  simp [natDigitsCh_isEmpty_false, natDigitsCh_all_isDigit, sixDigits_all_isDigit]
  rfl

theorem isFixed6_fmt6 (q : ℚ) : isFixed6 (fmt6 q) = true := by
  unfold fmt6
  by_cases hq : q < 0
  · rw [if_pos hq, List.singleton_append, List.cons_append]
    simp only [isFixed6, if_pos rfl]
    exact isFixed6Core_digits _ _
  · rw [if_neg hq, List.nil_append]
    cases heq : natDigitsCh ((roundHE (|q| * 1000000)).toNat / 1000000) with
    | nil => exact absurd heq (natDigitsCh_ne_nil _)
    | cons c cs =>
      have hcd : c.isDigit = true := mem_natDigitsCh (heq ▸ List.mem_cons_self c cs)
      have hcne : ¬(c = '-') := by
        intro h
        rw [h] at hcd
        exact absurd hcd (by decide)
      show (if c = '-' then
          isFixed6Core (cs ++ '.' :: sixDigits ((roundHE (|q| * 1000000)).toNat % 1000000))
        else
          isFixed6Core ((c :: cs) ++ '.' :: sixDigits ((roundHE (|q| * 1000000)).toNat % 1000000))) = true
      rw [if_neg hcne, ← heq]
      exact isFixed6Core_digits _ _

theorem isYoloLine_encodeLine (b : Box) : isYoloLine (encodeLine b) = true := by
  unfold isYoloLine
  rw [splitOnChar_space_encodeLine]
  simp [isIntTok_renderInt, isFixed6_fmt6]

/-- Claim C7: serialization produces exactly one line per box, in the
store's insertion order, terminated by a single final newline with no
trailing blank line (splitting the written text at newlines gives the
encoded lines in order plus one empty remainder after the last newline);
and every line consists of five space-separated fields — a decimal integer
class index and four six-decimal fixed-point floats, so no scientific
notation and exactly six digits after each dot. -/
theorem C7_encode_one_line_per_box (bs : List Box) :
    splitOnChar '\n' (encodeText bs) = bs.map encodeLine ++ [[]] ∧
    (splitOnChar '\n' (encodeText bs)).length = bs.length + 1 ∧
    ∀ b ∈ bs, isYoloLine (encodeLine b) = true := by
  refine ⟨splitOnChar_encodeText bs, ?_, ?_⟩
  · rw [splitOnChar_encodeText]
    simp
  · intro b _hb
    exact isYoloLine_encodeLine b

/-- Witness for C7 on a one-box store. -/
theorem C7_encode_one_line_per_box_witness :
    isYoloLine (encodeLine boxStale) = true :=
  (C7_encode_one_line_per_box [boxStale]).2.2 boxStale (List.mem_singleton.mpr rfl)

theorem displayedBoxes_eq_filter (ncls : ℕ) (bs : List Box) :
    displayedBoxes ncls bs = bs.filter (fun b => decide (b.class_index < (ncls : ℤ))) := by
  induction bs with
  | nil => rfl
  | cons b rest ih =>
    by_cases hb : b.class_index < (ncls : ℤ)
    · simp [displayedBoxes, List.filter_cons, hb, ih]
    · simp [displayedBoxes, List.filter_cons, hb, ih]

/-- Claim C2 (corrected): rendering draws exactly the boxes whose class
index is below the registry length — stale boxes are skipped but stay in
the store (display is a pure read of it) — but serialization enforces no
such bound: the saved text has one line for every box in the store,
whatever its class index. -/
theorem C2_render_skips_serialize_does_not (ncls : ℕ) (bs : List Box) :
    displayedBoxes ncls bs = bs.filter (fun b => decide (b.class_index < (ncls : ℤ))) ∧
    (∀ b ∈ displayedBoxes ncls bs, b.class_index < (ncls : ℤ)) ∧
    splitOnChar '\n' (encodeText bs) = bs.map encodeLine ++ [[]] ∧
    (splitOnChar '\n' (encodeText bs)).length = bs.length + 1 := by
  refine ⟨displayedBoxes_eq_filter ncls bs, ?_, splitOnChar_encodeText bs, ?_⟩
  · intro b hb
    rw [displayedBoxes_eq_filter] at hb
    have := List.of_mem_filter hb
    simpa using this
  · rw [splitOnChar_encodeText]
    simp

unseal natDigitsCh Rat.mul Rat.inv Rat.add Rat.sub in
/-- Counterexample to C2 as stated: with a single registered class
(`length 1`), saving a store holding a box with class index 5 writes that
box anyway — the label file's one line starts with `5`, and decoding the
file back yields class index 5 ≥ 1.  Serialization does not maintain the
`class_index < length(registry)` invariant. -/
theorem C2_counterexample :
    (save_current_annots c2state).disk 0 = some c2lineText.toList ∧
    (decodeContent c2lineText.toList).1.map Box.class_index = [5] ∧
    c2state.classes.length = 1 := by
  refine ⟨?_, by decide, by decide⟩
  show (if (0 : ℕ) = 0 then some (encodeText c2state.annots) else none) = some c2lineText.toList
  rw [if_pos rfl]
  decide

unseal Rat.mul Rat.inv in
/-- Witness for C2: with one registered class, a class-0 box is displayed
and its class index is below the registry length. -/
theorem C2_render_skips_serialize_does_not_witness :
    boxHalf.class_index < ((1 : ℕ) : ℤ) :=
  (C2_render_skips_serialize_does_not 1 [boxHalf]).2.1 boxHalf (by decide)

theorem deleteAnnotAt_eq_hit_test (w h : ℕ) (x y : ℤ) (boxes : List Box) :
    deleteAnnotAt w h x y boxes =
      (match hit_test w h x y boxes with
       | none => boxes
       | some i => boxes.eraseIdx i) := by
  induction boxes with
  | nil => rfl
  | cons b rest ih =>
    by_cases hb : insideB w h x y b
    · simp [deleteAnnotAt, hit_test, hb]
    · simp only [deleteAnnotAt, hit_test, hb, if_neg, Bool.false_eq_true, ite_false]
      rw [ih]
      cases hh : hit_test w h x y rest with
      | none => simp [hh]
      | some i => simp [hh, List.eraseIdx_cons_succ]

theorem hit_test_first (w h : ℕ) (x y : ℤ) (boxes : List Box) :
    ∀ i, hit_test w h x y boxes = some i →
      ∃ b, boxes.get? i = some b ∧ insideB w h x y b = true ∧
        ∀ j, j < i → ∀ c, boxes.get? j = some c → insideB w h x y c = false := by
  induction boxes with
  | nil =>
    intro i hi
    simp [hit_test] at hi
  | cons b rest ih =>
    intro i hi
    by_cases hb : insideB w h x y b
    · simp only [hit_test, hb, ite_true, Option.some.injEq] at hi
      subst hi
      exact ⟨b, rfl, hb, fun j hj => absurd hj (Nat.not_lt_zero j)⟩
    · simp only [hit_test, hb, Bool.false_eq_true, ite_false, Option.map_eq_some'] at hi
      obtain ⟨i', hi', rfl⟩ := hi
      obtain ⟨c, hc, hcin, hfirst⟩ := ih i' hi'
      refine ⟨c, by simpa using hc, hcin, ?_⟩
      intro j hj d hd
      cases j with
      | zero =>
        simp only [List.get?_cons_zero, Option.some.injEq] at hd
        subst hd
        exact Bool.not_eq_true _ ▸ (by simpa using hb)
      | succ j' =>
        simp only [List.get?_cons_succ] at hd
        exact hfirst j' (by omega) d hd

theorem deleteAnnotAt_length (w h : ℕ) (x y : ℤ) (boxes : List Box) :
    boxes.length ≤ (deleteAnnotAt w h x y boxes).length + 1 := by
  induction boxes with
  | nil => simp
  | cons b rest ih =>
    by_cases hb : insideB w h x y b
    · simp [deleteAnnotAt, hb]
    · simp only [deleteAnnotAt, hb, Bool.false_eq_true, ite_false, List.length_cons]
      omega

theorem cycleGo_length (w h : ℕ) (x y : ℤ) (ncls : ℕ) (boxes : List Box) :
    (cycleGo w h x y ncls boxes).length = boxes.length := by
  induction boxes with
  | nil => rfl
  | cons b rest ih =>
    by_cases hb : insideB w h x y b
    · simp [cycleGo, hb]
    · simp only [cycleGo, hb, Bool.false_eq_true, ite_false, List.length_cons, ih]

theorem cycleGo_frame (w h : ℕ) (x y : ℤ) (ncls : ℕ) (boxes : List Box) :
    ∃ k, ∀ j, j ≠ k → (cycleGo w h x y ncls boxes).get? j = boxes.get? j := by
  induction boxes with
  | nil => exact ⟨0, fun j _ => rfl⟩
  | cons b rest ih =>
    by_cases hb : insideB w h x y b
    · refine ⟨0, fun j hj => ?_⟩
      cases j with
      | zero => exact absurd rfl hj
      | succ j' => simp [cycleGo, hb]
    · obtain ⟨k, hk⟩ := ih
      refine ⟨k + 1, fun j hj => ?_⟩
      cases j with
      | zero => simp [cycleGo, hb]
      | succ j' =>
        simp only [cycleGo, hb, Bool.false_eq_true, ite_false, List.get?_cons_succ]
        exact hk j' (by omega)

/-- Claim C4: both point operations use the same first-match scan:
deletion removes exactly the box `hit_test` finds (the box with the least
insertion index whose denormalized rectangle contains the point,
`x1 ≤ x ≤ x2` and `y1 ≤ y ≤ y2`) and cycling reclassifies only that box;
when boxes `A` then `B` overlap the point, `A` (inserted first) is the one
deleted or recycled; and each call affects at most one box — deletion
shrinks the list by at most one, cycling keeps the length and changes at
most one position. -/
theorem C4_first_match_hit (w h : ℕ) (x y : ℤ) (ncls : ℕ) (boxes : List Box) :
    (deleteAnnotAt w h x y boxes =
      (match hit_test w h x y boxes with
       | none => boxes
       | some i => boxes.eraseIdx i)) ∧
    (∀ i, hit_test w h x y boxes = some i →
      ∃ b, boxes.get? i = some b ∧ insideB w h x y b = true ∧
        ∀ j, j < i → ∀ c, boxes.get? j = some c → insideB w h x y c = false) ∧
    (∀ A B rest, insideB w h x y A = true → insideB w h x y B = true →
      deleteAnnotAt w h x y (A :: B :: rest) = B :: rest ∧
      (ncls ≠ 0 → cycle_class_at w h x y ncls (A :: B :: rest) =
        { A with class_index := (A.class_index + 1) % (ncls : ℤ) } :: B :: rest)) ∧
    boxes.length ≤ (deleteAnnotAt w h x y boxes).length + 1 ∧
    (cycle_class_at w h x y ncls boxes).length = boxes.length ∧
    (∃ k, ∀ j, j ≠ k → (cycle_class_at w h x y ncls boxes).get? j = boxes.get? j) := by
  refine ⟨deleteAnnotAt_eq_hit_test w h x y boxes, hit_test_first w h x y boxes,
    ?_, deleteAnnotAt_length w h x y boxes, ?_, ?_⟩
  · intro A B rest hA _hB
    constructor
    · simp [deleteAnnotAt, hA]
    · intro hncls
      simp only [cycle_class_at, hncls, ite_false, if_neg hncls]
      simp only [cycleGo, hA, ite_true]
      rfl
  · unfold cycle_class_at
    split
    · rfl
    · exact cycleGo_length w h x y ncls boxes
  · unfold cycle_class_at
    split
    · exact ⟨0, fun j _ => rfl⟩
    · exact cycleGo_frame w h x y ncls boxes

unseal Rat.mul Rat.inv Rat.add Rat.sub in
/-- Witness for C4: on a 100 by 100 image, point (50, 50) lies inside both
`boxHalf` (inserted first) and `boxQuarter`; deletion removes `boxHalf`
and class cycling (2 classes) recolors `boxHalf` only. -/
theorem C4_first_match_hit_witness :
    deleteAnnotAt 100 100 50 50 [boxHalf, boxQuarter] = [boxQuarter] ∧
    ((2 : ℕ) ≠ 0 → cycle_class_at 100 100 50 50 2 [boxHalf, boxQuarter] =
      { boxHalf with class_index := (boxHalf.class_index + 1) % ((2 : ℕ) : ℤ) } :: [boxQuarter]) :=
  (C4_first_match_hit 100 100 50 50 2 [boxHalf, boxQuarter]).2.2.1 boxHalf boxQuarter []
    (by decide) (by decide)

unseal Rat.mul Rat.inv Rat.add Rat.sub natDigitsCh in
/-- Claim C10: every box appended through the pointer pipeline
(`widget_to_image_coords` clamping into `[0, w-1] × [0, h-1]`, then
`add_annotation` normalizing) has `x_center, y_center ∈ [0,1]` and
`width, height ∈ (0,1)` (the minimum-size spinbox keeps `min_box_size ≥ 5`,
so `1 ≤ minSize` always holds in the app) — while boxes loaded from a label
file are stored unvalidated: the file `"0 2.5 0.5 3.0 0.2\n"` loads a box
with `x_center = 5/2` and `width = 3 > 1`. -/
theorem C10_pointer_boxes_in_range :
    (∀ (w h minSize : ℕ) (scale : ℚ) (offX offY u1 v1 u2 v2 cls : ℤ)
      (anns : List Box) (p q : ℤ × ℤ) (bNew : Box),
      1 ≤ w → 1 ≤ h → 1 ≤ minSize →
      widget_to_image_coords w h scale offX offY u1 v1 = some p →
      widget_to_image_coords w h scale offX offY u2 v2 = some q →
      addAnnot cls minSize w h p.1 p.2 q.1 q.2 anns = anns ++ [bNew] →
      0 ≤ bNew.x_center ∧ bNew.x_center ≤ 1 ∧ 0 ≤ bNew.y_center ∧ bNew.y_center ≤ 1 ∧
        0 < bNew.width ∧ bNew.width < 1 ∧ 0 < bNew.height ∧ bNew.height < 1) ∧
    (decodeContent c10diskText.toList).1 = [⟨0, 5/2, 1/2, 3, 1/5⟩] ∧
    (∃ b ∈ (decodeContent c10diskText.toList).1, 1 < b.width) := by
  refine ⟨?_, by decide, by decide⟩
  intro w h minSize scale offX offY u1 v1 u2 v2 cls anns p q bNew hw hh hmin hp hq hadd
  obtain ⟨hp1a, hp1b, hp2a, hp2b⟩ :
      0 ≤ p.1 ∧ p.1 ≤ (w : ℤ) - 1 ∧ 0 ≤ p.2 ∧ p.2 ≤ (h : ℤ) - 1 := by
    unfold widget_to_image_coords at hp
    by_cases hs : scale = 0
    · rw [if_pos hs] at hp
      cases hp
    · rw [if_neg hs, Option.some.injEq] at hp
      subst hp
      exact ⟨le_max_left 0 _, max_le (by omega) (min_le_right _ _),
        le_max_left 0 _, max_le (by omega) (min_le_right _ _)⟩
  obtain ⟨hq1a, hq1b, hq2a, hq2b⟩ :
      0 ≤ q.1 ∧ q.1 ≤ (w : ℤ) - 1 ∧ 0 ≤ q.2 ∧ q.2 ≤ (h : ℤ) - 1 := by
    unfold widget_to_image_coords at hq
    by_cases hs : scale = 0
    · rw [if_pos hs] at hq
      cases hq
    · rw [if_neg hs, Option.some.injEq] at hq
      subst hq
      exact ⟨le_max_left 0 _, max_le (by omega) (min_le_right _ _),
        le_max_left 0 _, max_le (by omega) (min_le_right _ _)⟩
  have hrej : ¬(|q.1 - p.1| < (minSize : ℤ) ∨ |q.2 - p.2| < (minSize : ℤ)) := by
    intro hcon
    unfold addAnnot at hadd
    rw [if_pos hcon] at hadd
    have hlen := congrArg List.length hadd
    simp at hlen
  have hbNew : yoloBox cls w h p.1 p.2 q.1 q.2 = bNew := by
    unfold addAnnot at hadd
    rw [if_neg hrej] at hadd
    simpa using List.append_cancel_left hadd
  subst hbNew
  push_neg at hrej
  obtain ⟨hrej1, hrej2⟩ := hrej
  have hm1 : (1 : ℤ) ≤ |q.1 - p.1| := le_trans (by exact_mod_cast hmin) hrej1
  have hm2 : (1 : ℤ) ≤ |q.2 - p.2| := le_trans (by exact_mod_cast hmin) hrej2
  have hw1 : (1 : ℚ) ≤ (w : ℚ) := by exact_mod_cast hw
  have hh1 : (1 : ℚ) ≤ (h : ℚ) := by exact_mod_cast hh
  have hp1aQ : (0 : ℚ) ≤ (p.1 : ℚ) := by exact_mod_cast hp1a
  have hp1bQ : (p.1 : ℚ) ≤ (w : ℚ) - 1 := by exact_mod_cast hp1b
  have hp2aQ : (0 : ℚ) ≤ (p.2 : ℚ) := by exact_mod_cast hp2a
  have hp2bQ : (p.2 : ℚ) ≤ (h : ℚ) - 1 := by exact_mod_cast hp2b
  have hq1aQ : (0 : ℚ) ≤ (q.1 : ℚ) := by exact_mod_cast hq1a
  have hq1bQ : (q.1 : ℚ) ≤ (w : ℚ) - 1 := by exact_mod_cast hq1b
  have hq2aQ : (0 : ℚ) ≤ (q.2 : ℚ) := by exact_mod_cast hq2a
  have hq2bQ : (q.2 : ℚ) ≤ (h : ℚ) - 1 := by exact_mod_cast hq2b
  have hm1Q : (1 : ℚ) ≤ |(q.1 : ℚ) - (p.1 : ℚ)| := by
    have hc : ((1 : ℤ) : ℚ) ≤ ((|q.1 - p.1| : ℤ) : ℚ) := Int.cast_le.mpr hm1
    rw [Int.cast_abs] at hc
    push_cast at hc
    exact_mod_cast hc
  have hm2Q : (1 : ℚ) ≤ |(q.2 : ℚ) - (p.2 : ℚ)| := by
    have hc : ((1 : ℤ) : ℚ) ≤ ((|q.2 - p.2| : ℤ) : ℚ) := Int.cast_le.mpr hm2
    rw [Int.cast_abs] at hc
    push_cast at hc
    exact_mod_cast hc
  dsimp only [yoloBox]
  refine ⟨?_, ?_, ?_, ?_, ?_, ?_, ?_, ?_⟩
  · exact div_nonneg (div_nonneg (by linarith) (by norm_num)) (by linarith)
  · rw [div_div, div_le_one (by linarith : (0 : ℚ) < 2 * (w : ℚ))]
    linarith
  · exact div_nonneg (div_nonneg (by linarith) (by norm_num)) (by linarith)
  · rw [div_div, div_le_one (by linarith : (0 : ℚ) < 2 * (h : ℚ))]
    linarith
  · exact div_pos (by linarith) (by linarith)
  · rw [div_lt_one (by linarith : (0 : ℚ) < (w : ℚ))]
    exact abs_lt.mpr ⟨by linarith, by linarith⟩
  · exact div_pos (by linarith) (by linarith)
  · rw [div_lt_one (by linarith : (0 : ℚ) < (h : ℚ))]
    exact abs_lt.mpr ⟨by linarith, by linarith⟩

unseal Rat.mul Rat.inv Rat.add Rat.sub in
/-- Witness for C10: a drag from widget point (10,10) to (40,50) on a
100 by 100 image at scale 1 appends a box with all fields in range. -/
theorem C10_pointer_boxes_in_range_witness :
    0 ≤ (yoloBox 0 100 100 10 10 40 50).x_center ∧
    (yoloBox 0 100 100 10 10 40 50).x_center ≤ 1 ∧
    0 ≤ (yoloBox 0 100 100 10 10 40 50).y_center ∧
    (yoloBox 0 100 100 10 10 40 50).y_center ≤ 1 ∧
    0 < (yoloBox 0 100 100 10 10 40 50).width ∧
    (yoloBox 0 100 100 10 10 40 50).width < 1 ∧
    0 < (yoloBox 0 100 100 10 10 40 50).height ∧
    (yoloBox 0 100 100 10 10 40 50).height < 1 :=
  (C10_pointer_boxes_in_range).1 100 100 10 1 0 0 10 10 40 50 0 []
    (10, 10) (40, 50) (yoloBox 0 100 100 10 10 40 50)
    (by decide) (by decide) (by decide) (by decide) (by decide) (by decide)
